import Mathlib

/-!
Shallow embedding of the hotkey / synthetic-input core of `src/main.py`
(Stratagem Hotkeys application).  Python dicts become association lists or
pattern-matching functions, Python lists become `List`, the Win32 calls of
`send_sequence` become constructors of an event datatype, and the sleeps
become an explicit millisecond count.  The application fields that the
synthesis worker reads live (`self.input_keys`, `self.key_delay_ms`) are
modelled as an environment `Nat → Config` sampled once per loop iteration,
exactly as the Python worker re-reads the attributes on every iteration.
-/

namespace PyStrat

/-- A synthetic input event as injected by `send_sequence`:
`send_ctrl(0)` / `send_ctrl(KEYEVENTF_KEYUP)` inject the Ctrl modifier
(by scan code), `send_key(vk, 0)` / `send_key(vk, KEYEVENTF_KEYUP)` inject
a key by virtual-key code. -/
inductive Ev where
  | ctrlDown : Ev
  | ctrlUp : Ev
  | keyDown (vk : Nat) : Ev
  | keyUp (vk : Nat) : Ev
deriving DecidableEq, Repr

/-- The module-level `KEY_VK` dict of `src/main.py`: WASD letters to
virtual-key codes. -/
def KEY_VK : String → Option Nat
  | "W" => some 0x57
  | "A" => some 0x41
  | "S" => some 0x53
  | "D" => some 0x44
  | _ => none

/-- The `arrow_vk` dict built inside `send_sequence`: WASD letters to the
arrow-key virtual-key codes (VK_UP, VK_LEFT, VK_DOWN, VK_RIGHT). -/
def arrow_vk : String → Option Nat
  | "W" => some 0x26
  | "A" => some 0x25
  | "S" => some 0x28
  | "D" => some 0x27
  | _ => none

/-- Python `str.upper()` restricted to ASCII, which is all the key tables
distinguish: uppercase every character of the string. -/
def pyUpper (s : String) : String := ⟨s.data.map Char.toUpper⟩

/-- The per-iteration key resolution of `send_sequence`:
`key_name = entry.upper()`, then `arrow_vk.get(key_name)` when
`self.input_keys == "arrows"` else `KEY_VK.get(key_name)`. -/
def resolveVk (input_keys : String) (entry : String) : Option Nat :=
  let key_name := pyUpper entry
  if input_keys = "arrows" then arrow_vk key_name else KEY_VK key_name

/-- Python truthiness of the resolved `vk` as used in `if not vk: continue`:
`None` and `0` are falsy, every other int truthy. -/
def vkTruthy : Option Nat → Bool
  | none => false
  | some v => v != 0

/-- The mutable application state that `send_sequence` reads on each loop
iteration: `self.input_keys` and `self.key_delay_ms`. -/
structure Config where
  input_keys : String
  key_delay_ms : Int
deriving DecidableEq, Repr

/-- Events injected for one token of the sequence: a key-down / key-up pair
when the token resolves to a truthy virtual-key code, nothing when the
`continue` branch is taken. -/
def tokenEvents (input_keys : String) (entry : String) : List Ev :=
  match resolveVk input_keys entry with
  | some v => if v != 0 then [Ev.keyDown v, Ev.keyUp v] else []
  | none => []

/-- The token loop of `send_sequence`, followed by the final
`send_ctrl(KEYEVENTF_KEYUP)`.  `env i` is the application state observed at
iteration `i`; the Python worker reads `self.input_keys` afresh on every
iteration, so the environment is sampled per token. -/
def sendSequenceFrom (env : Nat → Config) : Nat → List String → List Ev
  | _, [] => [Ev.ctrlUp]
  | i, entry :: rest =>
      tokenEvents (env i).input_keys entry ++ sendSequenceFrom env (i + 1) rest

/-- The full event stream of one `send_sequence` activation:
`send_ctrl(0)` first, then the token loop, then `send_ctrl(KEYEVENTF_KEYUP)`. -/
def send_sequence (env : Nat → Config) (sequence : List String) : List Ev :=
  Ev.ctrlDown :: sendSequenceFrom env 0 sequence

/-- Milliseconds slept by the token loop: for each token that resolves,
`time.sleep(0.02)` (20 ms hold) plus `time.sleep(self.key_delay_ms / 1000.0)`
with the delay read live at that iteration; a skipped token sleeps nothing. -/
def seqSleepMs (env : Nat → Config) : Nat → List String → Int
  | _, [] => 0
  | i, entry :: rest =>
      (if vkTruthy (resolveVk (env i).input_keys entry)
        then 20 + (env i).key_delay_ms else 0)
        + seqSleepMs env (i + 1) rest

/-- Total milliseconds slept by one `send_sequence` activation: the single
`time.sleep(0.02)` after `send_ctrl(0)`, plus the per-token sleeps.  No sleep
follows the final `send_ctrl(KEYEVENTF_KEYUP)`. -/
def totalSleepMs (env : Nat → Config) (sequence : List String) : Int :=
  20 + seqSleepMs env 0 sequence

/-- A constant environment: the configuration is never mutated during the
activation. -/
def constEnv (cfg : Config) : Nat → Config := fun _ => cfg

/-- The `key_delay_ms` field produced by `UserData.load` from a stored file:
`int(raw.get("key_delay_ms", 40))` — the stored integer is taken as-is, with
default 40 when the key is absent (the no-file default is likewise 40). -/
def load_key_delay (stored : Option Int) : Int := stored.getD 40

/-- `StratagemApp.on_key_delay_change`: the spinbox value is clamped with
`value = max(10, min(300, value))` before being stored in
`self.key_delay_ms`. -/
def on_key_delay_change (value : Int) : Int := max 10 (min 300 value)

/-- The `Stratagem` dataclass of `src/main.py`. -/
structure Stratagem where
  name : String
  sequence : List String
  category : String
deriving DecidableEq, Repr

/-- `self.stratagem_map.get(name)`: the dict comprehension
`{item.name: item for item in self.stratagems}` keeps the last item under
each name, so lookup is first-match over the reversed catalog. -/
def stratagem_map (catalog : List Stratagem) (name : String) : Option Stratagem :=
  catalog.reverse.find? (fun item => item.name == name)

/-- `StratagemApp.activate_stratagem`: read `self.equipped[index]`, look the
name up in `self.stratagem_map`; on a miss set the unknown-stratagem status
and return; otherwise set the activated status and spawn a worker running
`send_sequence(strat.sequence)`.  The result is the status text together with
the sequence handed to the spawned worker (`none` when no worker is
spawned); the outer `none` models the `IndexError` Python raises on an
out-of-range slot index. -/
def activate_stratagem (catalog : List Stratagem) (equipped : List String)
    (index : Nat) : Option (String × Option (List String)) :=
  match equipped[index]? with
  | none => none
  | some name =>
    match stratagem_map catalog name with
    | none => some (s!"Unknown stratagem: {name}", none)
    | some strat =>
      let sequence_text := String.intercalate " " strat.sequence
      some (s!"Activated: {name} ({sequence_text})", some strat.sequence)

/-- The error string appended by `HotkeyManager._message_loop` when
`RegisterHotKey` returns false for an entry. -/
def failMsg (hotkey_id : Nat) : String := s!"Failed to register hotkey {hotkey_id}"

/-- The registration phase of `HotkeyManager._message_loop`: iterate over the
entries of `self.hotkey_map` in order; for each, call `RegisterHotKey` and on
a false return append an error string; no failure aborts the loop.
`registerOk hid vk` abstracts the boolean result of the OS call. -/
def registerPhase (registerOk : Nat → Nat → Bool) :
    List (Nat × Nat) → List String
  | [] => []
  | (hid, vk) :: rest =>
      (if registerOk hid vk then [] else [failMsg hid])
        ++ registerPhase registerOk rest

/-- The ordered `RegisterHotKey` calls the loop makes: the loop body visits
every entry unconditionally — an earlier false return changes no control
flow, only the error list. -/
def registerAttempts : List (Nat × Nat) → List (Nat × Nat)
  | [] => []
  | e :: rest => e :: registerAttempts rest

/-- `_message_loop` up to the readiness signal: the collected bind errors,
and whether `self.ready.set()` is reached (it always is — bind failures are
collected, never raised, and the loop proceeds to `GetMessageW`). -/
structure LoopStart where
  errors : List String
  ready : Bool
deriving DecidableEq, Repr

/-- The register phase followed by `self.ready.set()`. -/
def message_loop_start (registerOk : Nat → Nat → Bool)
    (hotkey_map : List (Nat × Nat)) : LoopStart :=
  { errors := registerPhase registerOk hotkey_map, ready := true }

/-- One entry of `self.keybinds`, e.g. `{"key_code": "0x67", "letter":
"NumPad7"}`, with the key code already parsed by `parse_key_code`
(`int(code, 16)`). -/
structure KeybindEntry where
  key_code : Nat
  letter : String
deriving DecidableEq, Repr

/-- The loop of `StratagemApp.register_hotkeys` building
`self.hotkey_id_to_index`: for `idx, keybind in enumerate(self.keybinds)`,
the id `1000 + idx` maps to `idx`.  `start` is the index of the first
remaining keybind. -/
def buildIdToIndex (start : Nat) : List KeybindEntry → List (Nat × Nat)
  | [] => []
  | _ :: rest => (1000 + start, start) :: buildIdToIndex (start + 1) rest

/-- `self.hotkey_id_to_index` after `register_hotkeys`. -/
def hotkey_id_to_index (keybinds : List KeybindEntry) : List (Nat × Nat) :=
  buildIdToIndex 0 keybinds

/-- The same loop building the `hotkey_map` passed to `HotkeyManager.start`:
`hotkey_map[hotkey_id] = vk`. -/
def buildHotkeyMap (start : Nat) : List KeybindEntry → List (Nat × Nat)
  | [] => []
  | kb :: rest => (1000 + start, kb.key_code) :: buildHotkeyMap (start + 1) rest

/-- The `hotkey_map` argument of `HotkeyManager.start`. -/
def register_hotkeys_map (keybinds : List KeybindEntry) : List (Nat × Nat) :=
  buildHotkeyMap 0 keybinds

/-- `StratagemApp.on_hotkey_fired`: `self.hotkey_id_to_index.get(hotkey_id)`;
on a miss return immediately, otherwise enqueue
`lambda: self.activate_stratagem(index)` on `self.ui_queue` via `run_in_ui`.
The queue is modelled as the list of slot indices whose activation callbacks
are pending. -/
def on_hotkey_fired (idToIndex : List (Nat × Nat)) (ui_queue : List Nat)
    (hotkey_id : Nat) : List Nat :=
  match idToIndex.lookup hotkey_id with
  | none => ui_queue
  | some index => ui_queue ++ [index]

/-- Startup normalization of the equipped list in `StratagemApp.__init__`:
pad a short list with a default fill drawn from `self.stratagem_names`, then
truncate to the keybind count. -/
def normalize_equipped (equipped : List String) (keybinds : List KeybindEntry)
    (stratagem_names : List String) : List String :=
  (if equipped.length < keybinds.length then
      equipped ++ stratagem_names.take (keybinds.length - equipped.length)
    else equipped).take keybinds.length

/-- `StratagemApp.set_stratagem` on the equipped list:
`self.equipped[index] = name`.  The UI supplies an in-range index; Python
raises `IndexError` otherwise (where `List.set` is the identity). -/
def set_stratagem (equipped : List String) (index : Nat) (name : String) :
    List String :=
  equipped.set index name

/-- `StratagemApp.on_preset_select` on the equipped list: assign
`loadout[: len(self.equipped)]` slot by slot through `set_stratagem`. -/
def on_preset_select (equipped : List String) (loadout : List String) :
    List String :=
  (loadout.take equipped.length).enum.foldl
    (fun acc p => set_stratagem acc p.1 p.2) equipped

/-- Modelled from the spec: `InjectionMode`.  `src/main.py` has no injection
mode switch — `send_key` always injects the virtual-key code and `send_ctrl`
always a scan code — so the `{ScanCode, VirtualKey, Unicode}` selection the
spec describes is modelled here from the spec text. -/
inductive InjectionMode where
  | ScanCode
  | VirtualKey
  | Unicode
deriving DecidableEq, Repr

/-- Modelled from the spec: one synthetic event of the mode-aware
Synthesizer, carrying its direction (`down = true` for key-down) and the
injected code; the injection mode determines only the code field. -/
structure ModeEvent where
  down : Bool
  code : Nat
deriving DecidableEq, Repr

/-- Modelled from the spec: encoding of a resolved physical code under an
injection mode — `ScanCode` translates the logical key to a hardware scan
code, `VirtualKey` injects the virtual-key code directly, `Unicode` injects
the character's code point. -/
def encodeCode (scanOf charOf : Nat → Nat) :
    InjectionMode → Nat → Nat
  | InjectionMode.ScanCode, vk => scanOf vk
  | InjectionMode.VirtualKey, vk => vk
  | InjectionMode.Unicode, vk => charOf vk

/-- Modelled from the spec: step 2 of `activate` for one token — resolve via
`key_map`; skip unresolved; else emit key-down then key-up in the mode's
encoding. -/
def modeTokenEvents (scanOf charOf : Nat → Nat) (mode : InjectionMode)
    (key_map : String → Option Nat) (token : String) : List ModeEvent :=
  match key_map token with
  | none => []
  | some code =>
      [⟨true, encodeCode scanOf charOf mode code⟩,
       ⟨false, encodeCode scanOf charOf mode code⟩]

/-- Modelled from the spec: the full `activate` event stream — bracketing
modifier down, the encoded token events in order, modifier up.  The modifier
is a fixed key outside the mode-dependent encoding of step 2. -/
def modeActivate (scanOf charOf : Nat → Nat) (modifierCode : Nat)
    (mode : InjectionMode) (key_map : String → Option Nat)
    (sequence : List String) : List ModeEvent :=
  ⟨true, modifierCode⟩ ::
    (sequence.flatMap (modeTokenEvents scanOf charOf mode key_map)
      ++ [⟨false, modifierCode⟩])

/-- Modelled from the spec: the pacing of `activate` as the ordered schedule
of sleeps — the ~20 ms modifier hold of step 1, then per resolved token the
~20 ms hold and the `inter_key_delay_ms` pause of step 2.  The mode is part
of the activation contract but plays no role in pacing. -/
def modeActivateSleeps (mode : InjectionMode) (key_map : String → Option Nat)
    (inter_key_delay_ms : Int) : List String → List Int
  | [] => []
  | token :: rest =>
      (match key_map token with
        | none => []
        | some _ => [20, inter_key_delay_ms])
        ++ modeActivateSleeps mode key_map inter_key_delay_ms rest

/-- Modelled from the spec: the sleep schedule of one whole activation. -/
def modeActivateSchedule (mode : InjectionMode) (key_map : String → Option Nat)
    (inter_key_delay_ms : Int) (sequence : List String) : List Int :=
  20 :: modeActivateSleeps mode key_map inter_key_delay_ms sequence

end PyStrat

namespace PyStrat

/-! ## Helper lemmas -/

/-- Under an unchanging configuration, the token loop flattens the per-token
events and closes with the modifier release, independently of the iteration
counter. -/
theorem sendSequenceFrom_const (cfg : Config) (sequence : List String) :
    ∀ i, sendSequenceFrom (constEnv cfg) i sequence =
      sequence.flatMap (tokenEvents cfg.input_keys) ++ [Ev.ctrlUp] := by
  induction sequence with
  | nil => intro i; rfl
  | cons entry rest ih =>
      intro i
      simp [sendSequenceFrom, constEnv, ih]

/-- Under an unchanging configuration in which every token of the sequence
resolves, the token loop sleeps `20 + delay` per token. -/
theorem seqSleepMs_const (cfg : Config) (sequence : List String)
    (hres : ∀ entry ∈ sequence,
      vkTruthy (resolveVk cfg.input_keys entry) = true) :
    ∀ i, seqSleepMs (constEnv cfg) i sequence =
      (sequence.length : Int) * (20 + cfg.key_delay_ms) := by
  induction sequence with
  | nil => intro i; simp [seqSleepMs]
  | cons entry rest ih =>
      intro i
      have h0 : vkTruthy (resolveVk cfg.input_keys entry) = true :=
        hres entry (List.mem_cons_self entry rest)
      have hrest := ih (fun e he => hres e (List.mem_cons_of_mem entry he))
      simp [seqSleepMs, constEnv, h0, hrest]
      ring

/-! ## C1 -/

/-- C1: One `send_sequence` activation emits the Ctrl key-down first, then
for each token of the sequence in order whose code resolves via the active
key map one key-down followed by one key-up, then the Ctrl key-up last; an
unresolved token is skipped without aborting the rest, and the sequence
`["W", "??", "S"]` (UP, unknown, DOWN under the arrows map) injects exactly
the UP pair then the DOWN pair. -/
theorem send_sequence_event_stream :
    (∀ (cfg : Config) (sequence : List String),
        send_sequence (constEnv cfg) sequence =
          Ev.ctrlDown ::
            (sequence.flatMap (tokenEvents cfg.input_keys) ++ [Ev.ctrlUp]))
    ∧ (∀ (input_keys entry : String) (v : Nat),
        resolveVk input_keys entry = some v → v ≠ 0 →
        tokenEvents input_keys entry = [Ev.keyDown v, Ev.keyUp v])
    ∧ (∀ input_keys entry : String,
        resolveVk input_keys entry = none → tokenEvents input_keys entry = [])
    ∧ send_sequence (constEnv ⟨"arrows", 40⟩) ["W", "??", "S"] =
        [Ev.ctrlDown, Ev.keyDown 0x26, Ev.keyUp 0x26,
          Ev.keyDown 0x28, Ev.keyUp 0x28, Ev.ctrlUp] := by
  refine ⟨?_, ?_, ?_, ?_⟩
  · intro cfg sequence
    simp [send_sequence, sendSequenceFrom_const]
  · intro input_keys entry v hsome hv
    simp [tokenEvents, hsome, hv]
  · intro input_keys entry hnone
    simp [tokenEvents, hnone]
  · decide

/-- Witness for C1: the a-priori hypotheses of the second and third conjuncts
hold at concrete inputs. -/
theorem send_sequence_event_stream_witness :
    tokenEvents "arrows" "W" = [Ev.keyDown 0x26, Ev.keyUp 0x26] ∧
    tokenEvents "wasd" "??" = [] :=
  ⟨send_sequence_event_stream.2.1 "arrows" "W" 0x26 (by decide) (by decide),
    send_sequence_event_stream.2.2.1 "wasd" "??" (by decide)⟩

/-! ## C2 -/

/-- C2 counterexample: for the one-token resolvable sequence `["W"]` with
delay 40 ms the activation sleeps 80 ms in total, not the claimed
`2×20 + 1×(2×20 + 40) = 120` ms. -/
theorem total_sleep_claim_counterexample :
    totalSleepMs (constEnv ⟨"wasd", 40⟩) ["W"] = 80 ∧
    (2 * 20 + 1 * (2 * 20 + 40) : Int) = 120 ∧ (80 : Int) ≠ 120 := by
  refine ⟨by decide, by decide, by decide⟩

/-- C2 amended: for a sequence of resolvable tokens under an unchanging
configuration with delay `D`, the total sleep time of one activation is
`20 + |S| × (20 + D)` milliseconds — one 20 ms modifier hold after the Ctrl
press (none after the release), and per token one 20 ms hold plus `D`. -/
theorem total_sleep_formula (cfg : Config) (sequence : List String)
    (hres : ∀ entry ∈ sequence,
      vkTruthy (resolveVk cfg.input_keys entry) = true) :
    totalSleepMs (constEnv cfg) sequence =
      20 + (sequence.length : Int) * (20 + cfg.key_delay_ms) := by
  simp [totalSleepMs, seqSleepMs_const cfg sequence hres]

/-- Witness for C2's amended theorem at `S = ["W", "S"]`, `D = 40`. -/
theorem total_sleep_formula_witness :
    totalSleepMs (constEnv ⟨"wasd", 40⟩) ["W", "S"] =
      20 + (2 : Int) * (20 + 40) := by
  have h := total_sleep_formula ⟨"wasd", 40⟩ ["W", "S"] (by decide)
  simpa using h

/-! ## C3 -/

/-- C3: Activating a slot whose equipped name is missing from the stratagem
catalog sets the unknown-stratagem status, spawns no synthesis worker (zero
key injections), and does not raise. -/
theorem activate_unresolved_no_injection (catalog : List Stratagem)
    (equipped : List String) (index : Nat) (name : String)
    (hidx : equipped[index]? = some name)
    (hmiss : stratagem_map catalog name = none) :
    activate_stratagem catalog equipped index =
      some (s!"Unknown stratagem: {name}", none) := by
  simp [activate_stratagem, hidx, hmiss]

/-- Witness for C3: slot 0 equips a name absent from a one-entry catalog. -/
theorem activate_unresolved_no_injection_witness :
    activate_stratagem [⟨"Reinforce", ["W", "S", "D"], "Supply"⟩]
        ["Ghost Macro"] 0 =
      some ("Unknown stratagem: Ghost Macro", none) :=
  activate_unresolved_no_injection
    [⟨"Reinforce", ["W", "S", "D"], "Supply"⟩] ["Ghost Macro"] 0
    "Ghost Macro" (by decide) (by decide)

/-! ## C4 -/

/-- C4: The registration phase attempts every entry of the hotkey map in
order with no early abort — the collected error list is exactly one failure
record per entry whose bind failed, and the loop then reaches the readiness
signal (failures are non-fatal). -/
theorem register_attempts_all (registerOk : Nat → Nat → Bool)
    (hotkey_map : List (Nat × Nat)) :
    registerAttempts hotkey_map = hotkey_map ∧
    registerPhase registerOk hotkey_map =
      (hotkey_map.filter (fun e => !(registerOk e.1 e.2))).map
        (fun e => failMsg e.1) ∧
    (message_loop_start registerOk hotkey_map).ready = true := by
  refine ⟨?_, ?_, rfl⟩
  · induction hotkey_map with
    | nil => rfl
    | cons e rest ih => simp [registerAttempts, ih]
  · induction hotkey_map with
    | nil => rfl
    | cons e rest ih =>
        obtain ⟨hid, vk⟩ := e
        by_cases h : registerOk hid vk
        · simp [registerPhase, List.filter_cons, h, ih]
        · simp [registerPhase, List.filter_cons, h, ih]

/-! ## C5 -/

/-- C5 counterexample: a stored file carrying `key_delay_ms = 1000` loads as
1000, which the application then holds although it lies outside [10, 300];
`UserData.load` performs no clamping. -/
theorem key_delay_load_counterexample :
    load_key_delay (some 1000) = 1000 ∧ ¬(load_key_delay (some 1000) ≤ 300) := by
  refine ⟨by decide, by decide⟩

/-- C5 amended: every mutation through the delay control
(`on_key_delay_change`) clamps into [10, 300], and loading with the key
absent (or no file) yields the in-range default 40; but a stored value is
loaded unclamped, so only the mutation path maintains the bounds. -/
theorem key_delay_mutation_bounds :
    (∀ value : Int, 10 ≤ on_key_delay_change value ∧
      on_key_delay_change value ≤ 300) ∧
    load_key_delay none = 40 ∧
    (∀ stored : Int, load_key_delay (some stored) = stored) := by
  refine ⟨?_, rfl, fun stored => rfl⟩
  intro value
  unfold on_key_delay_change
  omega

/-! ## C6 and C10 -/

/-- Looking up id `1000 + (start + i)` in the id-to-index map built from
index `start` onward recovers slot `start + i`. -/
theorem buildIdToIndex_lookup (keybinds : List KeybindEntry) :
    ∀ start i, i < keybinds.length →
      (buildIdToIndex start keybinds).lookup (1000 + (start + i)) =
        some (start + i) := by
  induction keybinds with
  | nil => intro start i h; exact absurd h (Nat.not_lt_zero i)
  | cons kb rest ih =>
      intro start i h
      cases i with
      | zero => simp [buildIdToIndex, List.lookup]
      | succ j =>
          have hne : ((1000 + (start + (j + 1))) == 1000 + start) = false := by
            simp only [beq_eq_false_iff_ne, ne_eq]
            omega
          have hj : j < rest.length := Nat.lt_of_succ_lt_succ h
          have harith : 1000 + (start + (j + 1)) = 1000 + (start + 1 + j) := by
            omega
          have hrec := ih (start + 1) j hj
          simp only [buildIdToIndex, List.lookup, hne]
          rw [harith, hrec]
          congr 1
          omega

/-- The same statement for the hotkey map handed to `HotkeyManager.start`:
the id `1000 + (start + i)` carries that slot's parsed key code. -/
theorem buildHotkeyMap_lookup (keybinds : List KeybindEntry) :
    ∀ start i, i < keybinds.length →
      (buildHotkeyMap start keybinds).lookup (1000 + (start + i)) =
        (keybinds[i]?).map (fun kb => kb.key_code) := by
  induction keybinds with
  | nil => intro start i h; exact absurd h (Nat.not_lt_zero i)
  | cons kb rest ih =>
      intro start i h
      cases i with
      | zero => simp [buildHotkeyMap, List.lookup]
      | succ j =>
          have hne : ((1000 + (start + (j + 1))) == 1000 + start) = false := by
            simp only [beq_eq_false_iff_ne, ne_eq]
            omega
          have hj : j < rest.length := Nat.lt_of_succ_lt_succ h
          have harith : 1000 + (start + (j + 1)) = 1000 + (start + 1 + j) := by
            omega
          have hrec := ih (start + 1) j hj
          simp only [buildHotkeyMap, List.lookup, hne]
          rw [harith, hrec]
          simp

/-- C6: hotkey ids and slot indices round-trip — for every slot index `i` of
the keybind table the registered id is `1000 + i` carrying that slot's key
code, and a hotkey message with that id resolves back to exactly slot `i`
and enqueues its activation. -/
theorem hotkey_id_roundtrip (keybinds : List KeybindEntry) (i : Nat)
    (h : i < keybinds.length) :
    (register_hotkeys_map keybinds).lookup (1000 + i) =
      (keybinds[i]?).map (fun kb => kb.key_code) ∧
    (hotkey_id_to_index keybinds).lookup (1000 + i) = some i ∧
    (∀ ui_queue : List Nat,
      on_hotkey_fired (hotkey_id_to_index keybinds) ui_queue (1000 + i) =
        ui_queue ++ [i]) := by
  have h1 := buildIdToIndex_lookup keybinds 0 i h
  have h2 := buildHotkeyMap_lookup keybinds 0 i h
  simp only [Nat.zero_add] at h1 h2
  refine ⟨h2, h1, ?_⟩
  intro ui_queue
  simp [on_hotkey_fired, hotkey_id_to_index, h1]

/-- Witness for C6: a two-entry keybind table, slot 1. -/
theorem hotkey_id_roundtrip_witness :
    (register_hotkeys_map
        [⟨0x67, "NumPad7"⟩, ⟨0x68, "NumPad8"⟩]).lookup 1001 = some 0x68 ∧
    (hotkey_id_to_index
        [⟨0x67, "NumPad7"⟩, ⟨0x68, "NumPad8"⟩]).lookup 1001 = some 1 ∧
    on_hotkey_fired
        (hotkey_id_to_index [⟨0x67, "NumPad7"⟩, ⟨0x68, "NumPad8"⟩]) [] 1001 =
      [1] := by
  have h := hotkey_id_roundtrip
    [⟨0x67, "NumPad7"⟩, ⟨0x68, "NumPad8"⟩] 1 (by decide)
  refine ⟨by simpa using h.1, h.2.1, by simpa using h.2.2 []⟩

/-- C10: a hotkey-fired notification whose id is not a key of the registered
id-to-index map is a no-op — the UI queue is returned unchanged, nothing is
enqueued, and the lookup-miss branch returns without raising. -/
theorem on_hotkey_fired_unknown_id (idToIndex : List (Nat × Nat))
    (ui_queue : List Nat) (hotkey_id : Nat)
    (h : idToIndex.lookup hotkey_id = none) :
    on_hotkey_fired idToIndex ui_queue hotkey_id = ui_queue := by
  simp [on_hotkey_fired, h]

/-- Witness for C10: id 999 against the map of a one-entry keybind table,
with one callback already pending. -/
theorem on_hotkey_fired_unknown_id_witness :
    on_hotkey_fired (hotkey_id_to_index [⟨0x67, "NumPad7"⟩]) [3] 999 = [3] :=
  on_hotkey_fired_unknown_id (hotkey_id_to_index [⟨0x67, "NumPad7"⟩]) [3] 999
    (by decide)

/-! ## C8 -/

/-- An environment that switches the input-key mapping from WASD to arrows
after the first loop iteration, modelling a mutation of `self.input_keys` by
the state-owning thread while the worker is between tokens. -/
def switchAfterFirst : Nat → Config :=
  fun i => if i = 0 then ⟨"wasd", 40⟩ else ⟨"arrows", 40⟩

/-- C8 counterexample: two runs of `send_sequence ["W", "W"]` whose
environments agree at activation time (iteration 0) — one constant, one whose
`input_keys` is mutated after the first token — inject different event
streams: `send_sequence` re-reads the live fields each iteration instead of
keeping a snapshot, so the mid-flight change retroactively alters the
already-started activation. -/
theorem snapshot_claim_counterexample :
    constEnv ⟨"wasd", 40⟩ 0 = switchAfterFirst 0 ∧
    send_sequence (constEnv ⟨"wasd", 40⟩) ["W", "W"] ≠
      send_sequence switchAfterFirst ["W", "W"] := by
  refine ⟨by decide, by decide⟩

/-- The token loop depends only on the configurations sampled at its own
iterations. -/
theorem sendSequenceFrom_congr (sequence : List String) :
    ∀ (k : Nat) (env1 env2 : Nat → Config),
      (∀ i, i < sequence.length → env1 (k + i) = env2 (k + i)) →
      sendSequenceFrom env1 k sequence = sendSequenceFrom env2 k sequence := by
  induction sequence with
  | nil => intro k env1 env2 _; rfl
  | cons entry rest ih =>
      intro k env1 env2 h
      have h0 : env1 k = env2 k := by
        have := h 0 (Nat.succ_pos rest.length)
        simpa using this
      have hrest : ∀ i, i < rest.length → env1 (k + 1 + i) = env2 (k + 1 + i) := by
        intro i hi
        have := h (i + 1) (Nat.succ_lt_succ hi)
        have harith : k + (i + 1) = k + 1 + i := by omega
        rwa [harith] at this
      simp [sendSequenceFrom, h0, ih (k + 1) env1 env2 hrest]

/-- The sleep accounting likewise depends only on the sampled
configurations. -/
theorem seqSleepMs_congr (sequence : List String) :
    ∀ (k : Nat) (env1 env2 : Nat → Config),
      (∀ i, i < sequence.length → env1 (k + i) = env2 (k + i)) →
      seqSleepMs env1 k sequence = seqSleepMs env2 k sequence := by
  induction sequence with
  | nil => intro k env1 env2 _; rfl
  | cons entry rest ih =>
      intro k env1 env2 h
      have h0 : env1 k = env2 k := by
        have := h 0 (Nat.succ_pos rest.length)
        simpa using this
      have hrest : ∀ i, i < rest.length → env1 (k + 1 + i) = env2 (k + 1 + i) := by
        intro i hi
        have := h (i + 1) (Nat.succ_lt_succ hi)
        have harith : k + (i + 1) = k + 1 + i := by omega
        rwa [harith] at this
      simp [seqSleepMs, h0, ih (k + 1) env1 env2 hrest]

/-- C8 amended: an activation is a function of the configurations actually
sampled during its run — whenever the configuration is not mutated while the
activation's tokens are processed (the environments agree on iterations
`0, …, |S|-1`), two runs inject identical events with identical pacing.
`send_sequence` does not capture a snapshot: the guarantee holds only
because nothing changed mid-flight, and a change at iteration `≥ |S|` is
harmless only because it is never sampled. -/
theorem send_sequence_sampled_config (env1 env2 : Nat → Config)
    (sequence : List String)
    (h : ∀ i, i < sequence.length → env1 i = env2 i) :
    send_sequence env1 sequence = send_sequence env2 sequence ∧
    totalSleepMs env1 sequence = totalSleepMs env2 sequence := by
  have hshift : ∀ i, i < sequence.length → env1 (0 + i) = env2 (0 + i) := by
    intro i hi
    simpa using h i hi
  constructor
  · simp [send_sequence, sendSequenceFrom_congr sequence 0 env1 env2 hshift]
  · simp [totalSleepMs, seqSleepMs_congr sequence 0 env1 env2 hshift]

/-- Witness for C8's amended theorem: a one-token run against the switching
environment — the configuration change after iteration 0 is never sampled,
so the stream and pacing match the constant-configuration run. -/
theorem send_sequence_sampled_config_witness :
    send_sequence (constEnv ⟨"wasd", 40⟩) ["W"] =
      send_sequence switchAfterFirst ["W"] ∧
    totalSleepMs (constEnv ⟨"wasd", 40⟩) ["W"] =
      totalSleepMs switchAfterFirst ["W"] :=
  send_sequence_sampled_config (constEnv ⟨"wasd", 40⟩) switchAfterFirst ["W"]
    (by
      intro i hi
      have hz : i = 0 := by simpa using hi
      subst hz
      rfl)

/-! ## C9 -/

/-- Folding slot assignments over any list leaves the equipped length
unchanged. -/
theorem foldl_set_length (pairs : List (Nat × String)) :
    ∀ equipped : List String,
      (pairs.foldl (fun acc p => set_stratagem acc p.1 p.2) equipped).length =
        equipped.length := by
  induction pairs with
  | nil => intro equipped; rfl
  | cons p rest ih =>
      intro equipped
      rw [List.foldl_cons, ih (set_stratagem equipped p.1 p.2)]
      simp [set_stratagem]

/-- C9: the equipped list always has exactly as many entries as the keybind
table — startup normalization pads and truncates to the keybind count
(provided the loaded list plus the catalog supply at least that many names,
as the shipped catalog always does), and both mutating operations
(`set_stratagem`, `on_preset_select`) preserve the length. -/
theorem equipped_length_invariant :
    (∀ (equipped : List String) (keybinds : List KeybindEntry)
        (stratagem_names : List String),
        keybinds.length ≤ equipped.length + stratagem_names.length →
        (normalize_equipped equipped keybinds stratagem_names).length =
          keybinds.length)
    ∧ (∀ (equipped : List String) (index : Nat) (name : String),
        (set_stratagem equipped index name).length = equipped.length)
    ∧ (∀ equipped loadout : List String,
        (on_preset_select equipped loadout).length = equipped.length) := by
  refine ⟨?_, ?_, ?_⟩
  · intro equipped keybinds stratagem_names h
    simp only [normalize_equipped]
    split
    · simp only [List.length_take, List.length_append]
      omega
    · simp only [List.length_take]
      omega
  · intro equipped index name
    simp [set_stratagem]
  · intro equipped loadout
    simp [on_preset_select, foldl_set_length]

/-- Witness for C9: an empty loaded list, a two-entry keybind table and a
two-name catalog normalize to length 2; the mutations preserve it. -/
theorem equipped_length_invariant_witness :
    (normalize_equipped [] [⟨0x67, "NumPad7"⟩, ⟨0x68, "NumPad8"⟩]
        ["Reinforce", "Resupply"]).length = 2 ∧
    (set_stratagem ["Reinforce", "Resupply"] 0 "Eagle Strafing Run").length = 2 ∧
    (on_preset_select ["Reinforce", "Resupply"]
        ["Orbital Precision Strike"]).length = 2 :=
  ⟨equipped_length_invariant.1 [] [⟨0x67, "NumPad7"⟩, ⟨0x68, "NumPad8"⟩]
      ["Reinforce", "Resupply"] (by decide),
    equipped_length_invariant.2.1 ["Reinforce", "Resupply"] 0
      "Eagle Strafing Run",
    equipped_length_invariant.2.2 ["Reinforce", "Resupply"]
      ["Orbital Precision Strike"]⟩

/-! ## C7 -/

/-- Under any two injection modes, the flattened token events of a sequence
have the same down/up pattern in the same order. -/
theorem modeStream_down_eq (scanOf charOf : Nat → Nat)
    (key_map : String → Option Nat) (m1 m2 : InjectionMode) :
    ∀ sequence : List String,
      ((sequence.flatMap (modeTokenEvents scanOf charOf m1 key_map)).map
          (fun e => e.down)) =
        ((sequence.flatMap (modeTokenEvents scanOf charOf m2 key_map)).map
          (fun e => e.down)) := by
  intro sequence
  induction sequence with
  | nil => rfl
  | cons token rest ih =>
      cases htok : key_map token with
      | none => simp [modeTokenEvents, htok, ih]
      | some code => simp [modeTokenEvents, htok, ih]

/-- C7: the same token sequence synthesized under `ScanCode` and under
`VirtualKey` produces event streams that agree in event count, ordering and
the down/up direction of every event — they can differ only in the code
field — and the sleep schedule (pacing) is identical; mode selection affects
only the step-2 encoding. -/
theorem mode_switch_encoding (scanOf charOf : Nat → Nat) (modifierCode : Nat)
    (key_map : String → Option Nat) (sequence : List String) :
    ((modeActivate scanOf charOf modifierCode InjectionMode.ScanCode key_map
        sequence).map (fun e => e.down)) =
      ((modeActivate scanOf charOf modifierCode InjectionMode.VirtualKey
        key_map sequence).map (fun e => e.down)) ∧
    (modeActivate scanOf charOf modifierCode InjectionMode.ScanCode key_map
        sequence).length =
      (modeActivate scanOf charOf modifierCode InjectionMode.VirtualKey
        key_map sequence).length ∧
    modeActivateSchedule InjectionMode.ScanCode key_map 40 sequence =
      modeActivateSchedule InjectionMode.VirtualKey key_map 40 sequence ∧
    (∀ (m1 m2 : InjectionMode) (d : Int),
      modeActivateSchedule m1 key_map d sequence =
        modeActivateSchedule m2 key_map d sequence) := by
  have hdown := modeStream_down_eq scanOf charOf key_map
    InjectionMode.ScanCode InjectionMode.VirtualKey sequence
  have hsleeps : ∀ (m1 m2 : InjectionMode) (d : Int) (s : List String),
      modeActivateSleeps m1 key_map d s = modeActivateSleeps m2 key_map d s := by
    intro m1 m2 d s
    induction s with
    | nil => rfl
    | cons token rest ih => simp [modeActivateSleeps, ih]
  have hsched : ∀ (m1 m2 : InjectionMode) (d : Int),
      modeActivateSchedule m1 key_map d sequence =
        modeActivateSchedule m2 key_map d sequence := by
    intro m1 m2 d
    simp [modeActivateSchedule, hsleeps m1 m2 d sequence]
  refine ⟨?_, ?_, hsched _ _ 40, hsched⟩
  · simp only [modeActivate, List.map_cons, List.map_append, hdown]
  · have hlen := congrArg List.length hdown
    simp only [List.length_map] at hlen
    simp only [modeActivate, List.length_cons, List.length_append]
    omega

end PyStrat
